import Mathlib

/-!
Verification of the mcproto binary codec (VarInt/VarLong, String, Position,
Packet) against its natural-language specification.

Byte buffers are modelled as `List Nat` whose elements are byte values
(< 256 where a claim needs it).  Go's fixed-width machine integers are
modelled as `Nat`/`Int` with explicit reductions modulo `2^32`/`2^64`
exactly where the Go code truncates.  Functions that can panic at runtime
(slice construction with a negative length) return `Option`, with `none`
standing for the panic.
-/

/-- Error sentinels of the package: `errBufTooSmall`, `errValueTooLarge`
(declared in types.go / varint.go) and `errStringTooLong` (declared only in
the unnamed source file part_000). -/
inductive Err where
  | bufTooSmall
  | valueTooLarge
  | stringTooLong
deriving DecidableEq, Repr

/-- Unsigned 32-bit bit pattern of a Go `int32` value, as in `uint64(uint32(v))`. -/
def uint32 (v : Int) : Nat := (v % (2 : Int) ^ 32).toNat

/-- Unsigned 64-bit bit pattern of a Go `int64` value, as in `uint64(v)`. -/
def uint64 (v : Int) : Nat := (v % (2 : Int) ^ 64).toNat

/-- Reinterpret a `uint64` bit pattern as a Go `int32` (two's complement on
the low 32 bits), as in `int32(v)` for `v uint64`. -/
def int32ofUInt64 (u : Nat) : Int :=
  if u % 2 ^ 32 < 2 ^ 31 then ((u % 2 ^ 32 : Nat) : Int)
  else ((u % 2 ^ 32 : Nat) : Int) - (2 : Int) ^ 32

/-- Reinterpret a `uint64` bit pattern as a Go `int64` (two's complement), as
in `int64(v)` for `v uint64`. -/
def int64ofUInt64 (u : Nat) : Int :=
  if u % 2 ^ 64 < 2 ^ 63 then ((u % 2 ^ 64 : Nat) : Int)
  else ((u % 2 ^ 64 : Nat) : Int) - (2 : Int) ^ 64

/-- Reinterpret an `int64` value as a Go `int32`, as in `int32(n)` for `n int64`. -/
def int32ofInt (v : Int) : Int := int32ofUInt64 (uint64 v)

/-- Reinterpret an `int64` value as a Go `int16`, as in `int16(n)` for `n int64`. -/
def int16ofInt (v : Int) : Int :=
  if uint64 v % 2 ^ 16 < 2 ^ 15 then ((uint64 v % 2 ^ 16 : Nat) : Int)
  else ((uint64 v % 2 ^ 16 : Nat) : Int) - (2 : Int) ^ 16

/-- Constant `maxIntBytes = 5` from the source. -/
def maxIntBytes : Nat := 5

/-- Constant `maxLongBytes = 10` from the source. -/
def maxLongBytes : Nat := 10

/-- Loop of `getVarN` from types.go:
`for i := 0; i < len(buf) && i < maxBytes; i++ { v |= uint64(buf[i]&cmask) << uint(i*cbits); if buf[i]&msb == 0 { return v, i + 1, nil } }`
with `cmask = 127`, `msb = 128`, `cbits = 7`; the accumulator `v` is a
`uint64`, so the shifted chunk is truncated modulo `2^64`.  Returns `some
(v, n)` on the in-loop return and `none` when the loop falls through. -/
def getVarNLoop : List Nat → Nat → Nat → Nat → Option (Nat × Nat)
  | _, 0, _, _ => none
  | [], _ + 1, _, _ => none
  | b :: bs, rem + 1, i, v =>
    let v' := v ||| ((b &&& 127) <<< (i * 7) % 2 ^ 64)
    if b &&& 128 = 0 then some (v', i + 1) else getVarNLoop bs rem (i + 1) v'

/-- Function `getVarN` from types.go.  On buffer exhaustion it reports the
number of bytes actually available (`return 0, len(buf), errBufTooSmall`). -/
def getVarN (buf : List Nat) (maxBytes : Nat) : Nat × Nat × Option Err :=
  match getVarNLoop buf maxBytes 0 0 with
  | some (v, n) => (v, n, none)
  | none =>
    if buf.length < maxBytes then (0, buf.length, some .bufTooSmall)
    else (0, maxBytes, some .valueTooLarge)

/-- Function `getVarInt` from types.go. -/
def getVarInt (buf : List Nat) : Int × Nat × Option Err :=
  let r := getVarN buf maxIntBytes
  (int32ofUInt64 r.1, r.2.1, r.2.2)

/-- Function `getVarLong` from types.go. -/
def getVarLong (buf : List Nat) : Int × Nat × Option Err :=
  let r := getVarN buf maxLongBytes
  (int64ofUInt64 r.1, r.2.1, r.2.2)

/-- Loop of `putVarN` from types.go.  The test `v &^ cmask == 0` on a
`uint64` value says that no bit above bit 6 is set, i.e. `v < 128`;
`byte(v)` and `byte(v | msb)` truncate modulo 256.  Returns the updated
buffer and `some n` on the in-loop return, `none` when the loop falls
through. -/
def putVarNLoop : List Nat → Nat → Nat → List Nat × Option Nat
  | buf, _, 0 => (buf, none)
  | [], _, _ + 1 => ([], none)
  | _ :: bs, v, rem + 1 =>
    if v < 128 then (v % 256 :: bs, some 1)
    else
      let r := putVarNLoop bs (v >>> 7) rem
      ((v ||| 128) % 256 :: r.1, r.2.map (· + 1))

/-- Function `putVarN` from types.go.  On a short destination buffer it
reports `len(buf)` (`return len(buf), errBufTooSmall`). -/
def putVarN (buf : List Nat) (v : Nat) (maxBytes : Nat) : List Nat × Nat × Option Err :=
  match putVarNLoop buf v maxBytes with
  | (buf', some n) => (buf', n, none)
  | (buf', none) =>
    if buf.length < maxBytes then (buf', buf.length, some .bufTooSmall)
    else (buf', maxBytes, some .valueTooLarge)

/-- Function `putVarInt` from types.go: converts to `uint32` before `uint64`
to avoid sign extension. -/
def putVarInt (buf : List Nat) (v : Int) : List Nat × Nat × Option Err :=
  putVarN buf (uint32 v) maxIntBytes

/-- Function `putVarLong` from types.go. -/
def putVarLong (buf : List Nat) (v : Int) : List Nat × Nat × Option Err :=
  putVarN buf (uint64 v) maxLongBytes

/-- Fuel-driven bit length: `bitsLenAux fuel v` counts how many binary
digits of `v` are seen within `fuel` halvings. -/
def bitsLenAux : Nat → Nat → Nat
  | 0, _ => 0
  | fuel + 1, v => if v = 0 then 0 else bitsLenAux fuel (v / 2) + 1

/-- Model of `math/bits.Len64`: the number of bits required to represent a
`uint64` value (0 for 0). -/
def bitsLen64 (v : Nat) : Nat := bitsLenAux 64 v

/-- Function `lenVarN` from types.go: `1 + ((bits.Len64(v) - 1) / cbits)`.
Go's `(0 - 1) / 7 == 0` for the value 0 agrees with Nat subtraction here. -/
def lenVarN (v : Nat) : Nat := 1 + (bitsLen64 v - 1) / 7

/-- Function `lenVarInt` from types.go. -/
def lenVarInt (v : Int) : Nat := lenVarN (uint32 v)

/-- Function `lenVarLong` from types.go. -/
def lenVarLong (v : Int) : Nat := lenVarN (uint64 v)

/-- Model of the Go builtin `copy(dst, src)`: overwrites the first
`min (len dst) (len src)` elements of `dst` with those of `src` and returns
the new `dst` together with the number of elements copied. -/
def goCopy (dst src : List Nat) : List Nat × Nat :=
  (src.take dst.length ++ dst.drop src.length, min dst.length src.length)

/-- Function `getString` from types.go.  `math.MaxInt16 = 32767`; the length
bound is checked with the generic `errValueTooLarge` sentinel in this file.
A decoded negative length reaches the slice expression `buf[n : n+int(length)]`
whose end is below its start, a runtime panic, modelled by `none`. -/
def getString (buf : List Nat) : Option (List Nat × Nat × Option Err) :=
  match getVarInt buf with
  | (_, n, some e) => some ([], n, some e)
  | (length, n, none) =>
    if length > 32767 then some ([], n, some .valueTooLarge)
    else if (buf.length : Int) < n + length then some ([], n, some .bufTooSmall)
    else if length < 0 then none
    else some ((buf.drop n).take length.toNat, n + length.toNat, none)

/-- Function `putString` from types.go, with the generic `errValueTooLarge`
sentinel for over-long strings. -/
def putString (buf : List Nat) (s : List Nat) : List Nat × Nat × Option Err :=
  if s.length > 32767 then (buf, 0, some .valueTooLarge)
  else
    match putVarInt buf (s.length : Int) with
    | (buf1, n, some e) => (buf1, n, some e)
    | (buf1, n, none) =>
      let c := goCopy (buf1.drop n) s
      if c.2 < s.length then (buf1.take n ++ c.1, n + c.2, some .bufTooSmall)
      else (buf1.take n ++ c.1, n + c.2, none)

/-- Constant `positionLen = 8` from types.go. -/
def positionLen : Nat := 8

/-- Struct `position` from types.go: `x int32`, `y int16`, `z int32`. -/
structure position where
  x : Int
  y : Int
  z : Int
deriving DecidableEq, Repr

/-- Function `getField` from types.go:
`int64(n<<(64-(size+offset))) >> (64 - size)`.  The left shift of a `uint64`
truncates modulo `2^64`; the arithmetic right shift of an `int64` is floor
division by the power of two, which for a positive divisor is Lean's `Int`
division. -/
def getField (n : Nat) (size offset : Nat) : Int :=
  int64ofUInt64 (n <<< (64 - (size + offset)) % 2 ^ 64) / (2 : Int) ^ (64 - size)

/-- Function `putField` from types.go:
`uint64(n) << (64 - size) >> (64 - (size + offset))`. -/
def putField (n : Int) (size offset : Nat) : Nat :=
  (uint64 n <<< (64 - size) % 2 ^ 64) >>> (64 - (size + offset))

/-- Model of `encoding/binary.BigEndian.Uint64(buf)`: the first eight list
elements read as a big-endian 64-bit word; callers guarantee at least eight
bytes (Go would panic otherwise, but every call site checks first). -/
def beUint64 : List Nat → Nat
  | b0 :: b1 :: b2 :: b3 :: b4 :: b5 :: b6 :: b7 :: _ =>
    b0 * 2 ^ 56 + b1 * 2 ^ 48 + b2 * 2 ^ 40 + b3 * 2 ^ 32 + b4 * 2 ^ 24 +
      b5 * 2 ^ 16 + b6 * 2 ^ 8 + b7
  | _ => 0

/-- Model of `encoding/binary.BigEndian.PutUint64`: the eight big-endian
bytes of a 64-bit word. -/
def bePutUint64 (v : Nat) : List Nat :=
  [v / 2 ^ 56 % 256, v / 2 ^ 48 % 256, v / 2 ^ 40 % 256, v / 2 ^ 32 % 256,
    v / 2 ^ 24 % 256, v / 2 ^ 16 % 256, v / 2 ^ 8 % 256, v % 256]

/-- Function `getPosition` from types.go. -/
def getPosition (buf : List Nat) : position × Nat × Option Err :=
  if buf.length < positionLen then (⟨0, 0, 0⟩, buf.length, some .bufTooSmall)
  else
    let v := beUint64 buf
    (⟨int32ofInt (getField v 26 38), int16ofInt (getField v 12 26),
      int32ofInt (getField v 26 0)⟩, positionLen, none)

/-- Function `putPosition` from types.go: ORs the three packed fields into a
64-bit word and writes it big-endian over the first eight bytes. -/
def putPosition (buf : List Nat) (p : position) : List Nat × Nat × Option Err :=
  if buf.length < positionLen then (buf, buf.length, some .bufTooSmall)
  else
    let v := putField p.x 26 38 ||| putField p.y 12 26 ||| putField p.z 26 0
    (bePutUint64 v ++ buf.drop 8, positionLen, none)

/-- Struct `packet` from types.go: `id int32`, `data []byte`. -/
structure packet where
  id : Int
  data : List Nat
deriving DecidableEq, Repr

/-- Function `getPacket` from types.go.  The payload length
`l := int(length) - m` may be negative, in which case `make([]byte, l)`
panics at runtime, modelled by `none`; `math.MaxInt32` is irrelevant here.
Otherwise the payload is copied out of the buffer into a fresh slice. -/
def getPacket (buf : List Nat) : Option (packet × Nat × Option Err) :=
  match getVarInt buf with
  | (_, n, some e) => some (⟨0, []⟩, n, some e)
  | (length, n1, none) =>
    match getVarInt (buf.drop n1) with
    | (_, m, some e) => some (⟨0, []⟩, n1 + m, some e)
    | (id, m, none) =>
      let n := n1 + m
      let l : Int := length - m
      if (buf.length : Int) < n + l then some (⟨0, []⟩, n, some .bufTooSmall)
      else if l < 0 then none
      else some (⟨id, (buf.drop n).take l.toNat⟩, n + l.toNat, none)

/-- Function `putPacket` from types.go; `math.MaxInt32 = 2147483647`. -/
def putPacket (buf : List Nat) (p : packet) : List Nat × Nat × Option Err :=
  let length := lenVarInt p.id + p.data.length
  if length > 2147483647 then (buf, 0, some .valueTooLarge)
  else
    match putVarInt buf (length : Int) with
    | (buf1, n1, some e) => (buf1, n1, some e)
    | (buf1, n1, none) =>
      match putVarInt (buf1.drop n1) p.id with
      | (buf2, m, some e) => (buf1.take n1 ++ buf2, n1 + m, some e)
      | (buf2, m, none) =>
        let n := n1 + m
        let buf3 := buf1.take n1 ++ buf2
        let c := goCopy (buf3.drop n) p.data
        if c.2 < p.data.length then (buf3.take n ++ c.1, n + c.2, some .bufTooSmall)
        else (buf3.take n ++ c.1, n + c.2, none)

namespace VarintGo

/-- Function `getVarN` from varint.go.  It shares the loop with the types.go
version but on buffer exhaustion reports the maximum field width
(`return 0, maxBytes, errBufTooSmall`) instead of `len(buf)`. -/
def getVarN (buf : List Nat) (maxBytes : Nat) : Nat × Nat × Option Err :=
  match getVarNLoop buf maxBytes 0 0 with
  | some (v, n) => (v, n, none)
  | none =>
    if buf.length < maxBytes then (0, maxBytes, some .bufTooSmall)
    else (0, maxBytes, some .valueTooLarge)

end VarintGo

namespace Part000

/-- Function `getString` from the unnamed source file part_000, which uses
the dedicated `errStringTooLong` sentinel for over-long declared lengths. -/
def getString (buf : List Nat) : Option (List Nat × Nat × Option Err) :=
  match getVarInt buf with
  | (_, n, some e) => some ([], n, some e)
  | (length, n, none) =>
    if length > 32767 then some ([], n, some .stringTooLong)
    else if (buf.length : Int) < n + length then some ([], n, some .bufTooSmall)
    else if length < 0 then none
    else some ((buf.drop n).take length.toNat, n + length.toNat, none)

/-- Function `putString` from the unnamed source file part_000, with the
dedicated `errStringTooLong` sentinel. -/
def putString (buf : List Nat) (s : List Nat) : List Nat × Nat × Option Err :=
  if s.length > 32767 then (buf, 0, some .stringTooLong)
  else
    match putVarInt buf (s.length : Int) with
    | (buf1, n, some e) => (buf1, n, some e)
    | (buf1, n, none) =>
      let c := goCopy (buf1.drop n) s
      if c.2 < s.length then (buf1.take n ++ c.1, n + c.2, some .bufTooSmall)
      else (buf1.take n ++ c.1, n + c.2, none)

end Part000

/-- Fuel-driven helper for `encVarNat`; the fuel bounds the number of
emitted bytes, and any fuel with `u < 2 ^ (7 * fuel)` gives the same
result. -/
def encVarNatAux : Nat → Nat → List Nat
  | 0, u => [u % 128]
  | fuel + 1, u => if u < 128 then [u] else (u % 128 + 128) :: encVarNatAux fuel (u / 128)

/-- Specification-level VarInt/VarLong byte sequence of an unsigned value:
seven payload bits per byte, least-significant group first, continuation bit
on every byte but the last.  Ten bytes of fuel cover every `uint64` value. -/
def encVarNat (u : Nat) : List Nat := encVarNatAux 10 u

/-- Sign extension of the low `w` bits of a value, two's complement within
width `w`. -/
def signExtend (w : Nat) (u : Nat) : Int :=
  if u % 2 ^ w < 2 ^ (w - 1) then ((u % 2 ^ w : Nat) : Int)
  else ((u % 2 ^ w : Nat) : Int) - (2 : Int) ^ w

/-- Specification-level wire bytes of a packet:
`VarInt(lenVarInt id + len data) ++ VarInt(id) ++ data`. -/
def packetBytes (p : packet) : List Nat :=
  encVarNat (uint32 ((lenVarInt p.id + p.data.length : Nat) : Int)) ++
    encVarNat (uint32 p.id) ++ p.data

/-- Total number of bytes in the wire form of a packet. -/
def packetWireLength (p : packet) : Nat :=
  lenVarInt ((lenVarInt p.id + p.data.length : Nat) : Int) + lenVarInt p.id + p.data.length

-- Sanity checks against the repository's own test vectors (removed later).
example : getVarInt [0x00] = (0, 1, none) := by decide
example : getVarInt [0x7f] = (127, 1, none) := by decide
example : getVarInt [0x80, 0x01] = (128, 2, none) := by decide
example : getVarInt [0xff, 0xff, 0xff, 0xff, 0x07] = (2147483647, 5, none) := by decide
example : getVarInt [0xff, 0xff, 0xff, 0xff, 0x0f] = (-1, 5, none) := by decide
example : getVarInt [0x80, 0x80, 0x80, 0x80, 0x08] = (-2147483648, 5, none) := by decide
example : getVarInt [] = (0, 0, some .bufTooSmall) := by decide
example : getVarInt [0xff] = (0, 1, some .bufTooSmall) := by decide
example : getVarInt [0xff, 0xff, 0xff, 0xff, 0xff, 0x0f] = (0, 5, some .valueTooLarge) := by decide
example : getVarLong (List.replicate 8 0xff ++ [0x7f]) = (2 ^ 63 - 1, 9, none) := by decide
example : getVarLong (List.replicate 9 0xff ++ [0x01]) = (-1, 10, none) := by decide
example : getVarLong (List.replicate 9 0x80 ++ [0x01]) = (-(2 ^ 63), 10, none) := by decide
example : VarintGo.getVarN [0xff] 5 = (0, 5, some .bufTooSmall) := by decide
example : (putVarInt (List.replicate 5 9) (-1)).1 = [0xff, 0xff, 0xff, 0xff, 0x0f] := by decide
example : putVarInt (List.replicate 5 9) 128 = ([0x80, 0x01, 9, 9, 9], 2, none) := by decide
example : lenVarInt (-1) = 5 := by decide
example : lenVarLong (-1) = 10 := by decide
example : lenVarInt 2147483647 = 5 := by decide
example : getString [0x01] = some ([], 1, some .bufTooSmall) := by decide
example : getString [0xff, 0xff, 0x02] = some ([], 3, some .valueTooLarge) := by decide
example : getString [0x02, 65, 66, 67] = some ([65, 66], 3, none) := by decide
example : Part000.getString [0xff, 0xff, 0x02] = some ([], 3, some .stringTooLong) := by decide
example : getPosition [0x00, 0x00, 0x40, 0x40, 0xab, 0xff, 0xfd, 0xff] =
    (⟨257, 42, -513⟩, 8, none) := by decide
example : putPosition (List.replicate 8 0) ⟨257, 42, -513⟩ =
    ([0x00, 0x00, 0x40, 0x40, 0xab, 0xff, 0xfd, 0xff], 8, none) := by decide
example : putPosition (List.replicate 8 7) ⟨0, 0, 0⟩ = (List.replicate 8 0, 8, none) := by decide
example : getPacket [0x05, 0x04, 0x03, 0x02, 0x01, 0x00] =
    some (⟨4, [3, 2, 1, 0]⟩, 6, none) := by decide
example : putPacket (List.replicate 6 9) ⟨4, [3, 2, 1, 0]⟩ =
    ([0x05, 0x04, 0x03, 0x02, 0x01, 0x00], 6, none) := by decide
example : getPacket [0x00, 0x00] = none := by decide
example : getPacket [0x01, 0x00] = some (⟨0, []⟩, 2, none) := by decide
example : getPacket [] = some (⟨0, []⟩, 0, some .bufTooSmall) := by decide
example : getPacket [0x01] = some (⟨0, []⟩, 1, some .bufTooSmall) := by decide
example : encVarNat (uint32 (-1)) = [0xff, 0xff, 0xff, 0xff, 0x0f] := by decide

/-! ## Bit-manipulation toolkit -/

theorem testBit_eq_false_of_lt {b n j : Nat} (h : b < 2 ^ n) (hj : n ≤ j) :
    b.testBit j = false := by
  rw [← Nat.mod_eq_of_lt h, Nat.testBit_mod_two_pow]
  simp [Nat.not_lt.mpr hj]

theorem lor_mul_pow_eq_add {n a b : Nat} (h : b < 2 ^ n) :
    a * 2 ^ n ||| b = a * 2 ^ n + b := by
  apply Nat.eq_of_testBit_eq
  intro j
  rw [Nat.mul_comm a (2 ^ n), Nat.testBit_mul_pow_two_add a h, Nat.testBit_lor,
    Nat.mul_comm (2 ^ n) a, ← Nat.shiftLeft_eq, Nat.testBit_shiftLeft]
  by_cases hj : j < n
  · simp [hj, Nat.not_le.mpr hj]
  · have hge : n ≤ j := Nat.not_lt.mp hj
    simp [hj, ge_iff_le, hge, testBit_eq_false_of_lt h hge]

theorem land127_eq_mod (v : Nat) : v &&& 127 = v % 128 := by
  have h : (127 : Nat) = 2 ^ 7 - 1 := by norm_num
  have h2 : (128 : Nat) = 2 ^ 7 := by norm_num
  rw [h, h2, Nat.and_pow_two_sub_one_eq_mod]

theorem land128_eq_zero_iff (v : Nat) : v &&& 128 = 0 ↔ v / 128 % 2 = 0 := by
  have h : (128 : Nat) = 2 ^ 7 := by norm_num
  rw [h, Nat.and_two_pow, Nat.testBit_to_div_mod]
  rcases Nat.mod_two_eq_zero_or_one (v / 2 ^ 7) with h2 | h2 <;> simp [h2]

theorem byte_or128 (v : Nat) : (v ||| 128) % 256 = v % 128 + 128 := by
  apply Nat.eq_of_testBit_eq
  intro j
  have hb : v % 128 < 2 ^ 7 := by omega
  have hsum : v % 128 + 128 = 2 ^ 7 * 1 + v % 128 := by omega
  rw [hsum, (by norm_num : (256 : Nat) = 2 ^ 8), Nat.testBit_mod_two_pow, Nat.testBit_lor,
    Nat.testBit_mul_pow_two_add 1 hb, (by norm_num : (128 : Nat) = 2 ^ 7), Nat.testBit_two_pow]
  rcases Nat.lt_trichotomy j 7 with hj | hj | hj
  · have e1 : (v % 2 ^ 7).testBit j = v.testBit j := by
      rw [Nat.testBit_mod_two_pow]; simp [hj]
    rw [if_pos hj, e1]
    simp [(by omega : j < 8), (by omega : ¬(7 = j))]
    intro h
    exact absurd h (by omega)
  · subst hj
    rw [if_neg (by omega)]
    simp [(by decide : Nat.testBit 1 0 = true)]
  · have e2 : Nat.testBit 1 (j - 7) = false :=
      @testBit_eq_false_of_lt 1 1 (j - 7) (by norm_num) (by omega)
    rw [if_neg (by omega), e2]
    simp [(by omega : ¬(j < 8))]
    intro h
    exact absurd h (by omega)

/-! ## Fuel congruence and length lemmas -/

theorem bitsLenAux_congr : ∀ f g v, v < 2 ^ f → v < 2 ^ g → bitsLenAux f v = bitsLenAux g v := by
  intro f
  induction f with
  | zero =>
    intro g v hf _
    have hv : v = 0 := by simpa using hf
    subst hv
    cases g <;> simp [bitsLenAux]
  | succ f ih =>
    intro g v hf hg
    by_cases hv : v = 0
    · subst hv; cases g <;> simp [bitsLenAux]
    · cases g with
      | zero =>
        have : v = 0 := by simpa using hg
        exact absurd this hv
      | succ g =>
        simp only [bitsLenAux, hv, if_false]
        have h1 : v / 2 < 2 ^ f := by omega
        have h2 : v / 2 < 2 ^ g := by omega
        rw [ih g (v / 2) h1 h2]

theorem bitsLenAux_le_of_lt : ∀ fuel v k, v < 2 ^ k → bitsLenAux fuel v ≤ k := by
  intro fuel
  induction fuel with
  | zero => intro v k _; simp [bitsLenAux]
  | succ fuel ih =>
    intro v k hk
    by_cases hv : v = 0
    · subst hv; simp [bitsLenAux]
    · cases k with
      | zero => exact absurd (by simpa using hk) hv
      | succ k =>
        simp only [bitsLenAux, hv, if_false]
        have : v / 2 < 2 ^ k := by omega
        exact Nat.succ_le_succ (ih (v / 2) k this)

theorem bitsLenAux_gt : ∀ fuel k v, 2 ^ k ≤ v → k < fuel → k < bitsLenAux fuel v := by
  intro fuel
  induction fuel with
  | zero => intro k v _ h; omega
  | succ fuel ih =>
    intro k v hk hf
    have hv : v ≠ 0 := by
      have : 0 < 2 ^ k := Nat.pos_pow_of_pos k (by omega)
      omega
    simp only [bitsLenAux, hv, if_false]
    cases k with
    | zero => omega
    | succ k =>
      have h1 : 2 ^ k ≤ v / 2 := by omega
      have h2 : k < fuel := by omega
      have := ih k (v / 2) h1 h2
      omega

theorem bitsLenAux_div_pow : ∀ j fuel v, 2 ^ j ≤ v →
    bitsLenAux (fuel + j) v = bitsLenAux fuel (v / 2 ^ j) + j := by
  intro j
  induction j with
  | zero => intro fuel v _; simp
  | succ j ih =>
    intro fuel v hv
    have hv0 : v ≠ 0 := by
      have : 0 < 2 ^ (j + 1) := Nat.pos_pow_of_pos _ (by omega)
      omega
    have step : bitsLenAux (fuel + (j + 1)) v = bitsLenAux (fuel + j) (v / 2) + 1 := by
      have : fuel + (j + 1) = (fuel + j) + 1 := by omega
      rw [this]
      simp [bitsLenAux, hv0]
    rw [step, ih fuel (v / 2) (by omega)]
    have : v / 2 / 2 ^ j = v / 2 ^ (j + 1) := by
      rw [Nat.div_div_eq_div_mul]
      congr 1
      rw [Nat.pow_succ]
      omega
    rw [this]
    omega

theorem bitsLen64_div128 {u : Nat} (h1 : 128 ≤ u) (h2 : u < 2 ^ 64) :
    bitsLen64 u = bitsLen64 (u / 128) + 7 := by
  unfold bitsLen64
  have e1 : bitsLenAux 64 u = bitsLenAux 57 (u / 2 ^ 7) + 7 := by
    have : (64 : Nat) = 57 + 7 := by omega
    rw [this]
    exact bitsLenAux_div_pow 7 57 u (by omega)
  have e2 : bitsLenAux 57 (u / 2 ^ 7) = bitsLenAux 64 (u / 2 ^ 7) :=
    bitsLenAux_congr 57 64 (u / 2 ^ 7) (by omega) (by omega)
  rw [e1, e2]
  norm_num

theorem lenVarN_of_lt {u : Nat} (h : u < 128) : lenVarN u = 1 := by
  unfold lenVarN
  have : bitsLen64 u ≤ 7 := bitsLenAux_le_of_lt 64 u 7 (by omega)
  omega

theorem lenVarN_div128 {u : Nat} (h1 : 128 ≤ u) (h2 : u < 2 ^ 64) :
    lenVarN u = 1 + lenVarN (u / 128) := by
  unfold lenVarN
  rw [bitsLen64_div128 h1 h2]
  have hpos : 0 < bitsLen64 (u / 128) := by
    have : 2 ^ 0 ≤ u / 128 := by omega
    exact bitsLenAux_gt 64 0 (u / 128) this (by omega)
  omega

theorem encVarNatAux_congr : ∀ f g u, u < 2 ^ (7 * f) → u < 2 ^ (7 * g) →
    encVarNatAux f u = encVarNatAux g u := by
  intro f
  induction f with
  | zero =>
    intro g u hf _
    have hu : u = 0 := by simpa using hf
    subst hu
    cases g <;> simp [encVarNatAux]
  | succ f ih =>
    intro g u hf hg
    by_cases hu : u < 128
    · cases g with
      | zero =>
        have : u = 0 := by simpa using hg
        subst this
        simp [encVarNatAux]
      | succ g => simp [encVarNatAux, hu]
    · cases g with
      | zero =>
        have : u = 0 := by simpa using hg
        omega
      | succ g =>
        simp only [encVarNatAux, hu, if_false]
        have h1 : u / 128 < 2 ^ (7 * f) := by
          have : 2 ^ (7 * (f + 1)) = 2 ^ (7 * f) * 128 := by
            rw [Nat.mul_succ, Nat.pow_add]
          rw [Nat.div_lt_iff_lt_mul (by norm_num : (0:Nat) < 128)]
          omega
        have h2 : u / 128 < 2 ^ (7 * g) := by
          have : 2 ^ (7 * (g + 1)) = 2 ^ (7 * g) * 128 := by
            rw [Nat.mul_succ, Nat.pow_add]
          rw [Nat.div_lt_iff_lt_mul (by norm_num : (0:Nat) < 128)]
          omega
        rw [ih g (u / 128) h1 h2]

theorem encVarNatAux_succ (fuel u : Nat) :
    encVarNatAux (fuel + 1) u =
      if u < 128 then [u] else (u % 128 + 128) :: encVarNatAux fuel (u / 128) := rfl

theorem encVarNat_eq {u : Nat} (h : u < 2 ^ 64) :
    encVarNat u = if u < 128 then [u] else (u % 128 + 128) :: encVarNat (u / 128) := by
  show encVarNatAux (9 + 1) u = _
  rw [encVarNatAux_succ]
  by_cases hu : u < 128
  · simp [hu]
  · rw [if_neg hu, if_neg hu]
    congr 1
    apply encVarNatAux_congr
    · have e : 2 ^ (7 * 9) = 2 ^ 63 := by norm_num
      rw [e]
      omega
    · have e : 2 ^ (7 * 10) = 2 ^ 70 := by norm_num
      rw [e]
      omega

theorem encVarNat_length {u : Nat} (h : u < 2 ^ 64) : (encVarNat u).length = lenVarN u := by
  induction u using Nat.strong_induction_on with
  | _ u ih =>
    rw [encVarNat_eq h]
    by_cases hu : u < 128
    · simp [hu, lenVarN_of_lt hu]
    · have hdiv : u / 128 < u := Nat.div_lt_self (by omega) (by omega)
      simp only [hu, if_false, List.length_cons]
      rw [ih (u / 128) hdiv (by omega), lenVarN_div128 (by omega) h]
      omega

theorem encVarNat_length_le : ∀ k u, u < 2 ^ 64 → u < 2 ^ (7 * k + 7) →
    (encVarNat u).length ≤ k + 1 := by
  intro k
  induction k with
  | zero =>
    intro u h64 h
    rw [encVarNat_eq h64, if_pos (by omega : u < 128)]
    simp
  | succ k ih =>
    intro u h64 h
    rw [encVarNat_eq h64]
    by_cases hu : u < 128
    · simp [hu]
    · simp only [hu, if_false, List.length_cons]
      have h1 : u / 128 < 2 ^ 64 := by omega
      have h2 : u / 128 < 2 ^ (7 * k + 7) := by
        have : 2 ^ (7 * (k + 1) + 7) = 2 ^ (7 * k + 7) * 128 := by
          rw [(by omega : 7 * (k + 1) + 7 = (7 * k + 7) + 7), Nat.pow_add]
        rw [Nat.div_lt_iff_lt_mul (by norm_num : (0:Nat) < 128)]
        omega
      have := ih (u / 128) h1 h2
      omega

/-! ## Encoder and decoder loop correctness -/

theorem putVarNLoop_spec : ∀ u buf rem, u < 2 ^ 64 →
    (encVarNat u).length ≤ rem → (encVarNat u).length ≤ buf.length →
    putVarNLoop buf u rem =
      (encVarNat u ++ buf.drop (encVarNat u).length, some (encVarNat u).length) := by
  intro u
  induction u using Nat.strong_induction_on with
  | _ u ih =>
    intro buf rem h64 hrem hbuf
    rw [encVarNat_eq h64] at hrem hbuf ⊢
    by_cases hu : u < 128
    · rw [if_pos hu] at hrem hbuf ⊢
      simp only [List.length_cons, List.length_nil] at hrem hbuf
      obtain ⟨b, bs, rfl⟩ : ∃ b bs, buf = b :: bs := by
        cases buf with
        | nil => simp at hbuf
        | cons b bs => exact ⟨b, bs, rfl⟩
      obtain ⟨r, rfl⟩ : ∃ r, rem = r + 1 := ⟨rem - 1, by omega⟩
      simp only [putVarNLoop, if_pos hu]
      rw [Nat.mod_eq_of_lt (by omega : u < 256)]
      simp
    · rw [if_neg hu] at hrem hbuf ⊢
      simp only [List.length_cons] at hrem hbuf
      obtain ⟨b, bs, rfl⟩ : ∃ b bs, buf = b :: bs := by
        cases buf with
        | nil => simp at hbuf
        | cons b bs => exact ⟨b, bs, rfl⟩
      obtain ⟨r, rfl⟩ : ∃ r, rem = r + 1 := ⟨rem - 1, by omega⟩
      simp only [putVarNLoop, if_neg hu]
      have hshift : u >>> 7 = u / 128 := by
        rw [Nat.shiftRight_eq_div_pow]
      have hrec := ih (u / 128) (Nat.div_lt_self (by omega) (by omega)) bs r
        (by omega) (by simp at hbuf ⊢; omega) (by simp at hbuf ⊢; omega)
      rw [hshift, hrec, byte_or128 u]
      simp

theorem getVarNLoop_spec : ∀ u rest rem i acc, u < 2 ^ 64 →
    (encVarNat u).length ≤ rem → acc < 2 ^ (i * 7) → u * 2 ^ (i * 7) < 2 ^ 64 →
    getVarNLoop (encVarNat u ++ rest) rem i acc =
      some (acc + u * 2 ^ (i * 7), i + (encVarNat u).length) := by
  intro u
  induction u using Nat.strong_induction_on with
  | _ u ih =>
    intro rest rem i acc h64 hrem hacc hu64
    rw [encVarNat_eq h64] at hrem ⊢
    by_cases hu : u < 128
    · rw [if_pos hu] at hrem ⊢
      obtain ⟨r, rfl⟩ : ∃ r, rem = r + 1 := ⟨rem - 1, by simp at hrem; omega⟩
      show getVarNLoop (u :: rest) (r + 1) i acc = _
      simp only [getVarNLoop]
      have h127 : u &&& 127 = u := by rw [land127_eq_mod]; omega
      have h128 : u &&& 128 = 0 := by rw [land128_eq_zero_iff]; omega
      rw [h127, if_pos h128]
      have hmod : u <<< (i * 7) % 2 ^ 64 = u * 2 ^ (i * 7) := by
        rw [Nat.shiftLeft_eq]
        exact Nat.mod_eq_of_lt hu64
      rw [hmod, Nat.lor_comm, lor_mul_pow_eq_add hacc, Nat.add_comm (u * 2 ^ (i * 7)) acc]
      simp
    · rw [if_neg hu] at hrem ⊢
      obtain ⟨r, rfl⟩ : ∃ r, rem = r + 1 := ⟨rem - 1, by simp at hrem; omega⟩
      show getVarNLoop ((u % 128 + 128) :: (encVarNat (u / 128) ++ rest)) (r + 1) i acc = _
      simp only [getVarNLoop]
      have h127 : (u % 128 + 128) &&& 127 = u % 128 := by rw [land127_eq_mod]; omega
      have h128 : ¬((u % 128 + 128) &&& 128 = 0) := by rw [land128_eq_zero_iff]; omega
      rw [h127, if_neg h128]
      have hmod : (u % 128) <<< (i * 7) % 2 ^ 64 = (u % 128) * 2 ^ (i * 7) := by
        rw [Nat.shiftLeft_eq]
        apply Nat.mod_eq_of_lt
        calc (u % 128) * 2 ^ (i * 7) ≤ u * 2 ^ (i * 7) :=
              Nat.mul_le_mul_right _ (Nat.mod_le u 128)
        _ < 2 ^ 64 := hu64
      have hlor : acc ||| (u % 128) * 2 ^ (i * 7) = acc + (u % 128) * 2 ^ (i * 7) := by
        rw [Nat.lor_comm, lor_mul_pow_eq_add hacc, Nat.add_comm]
      have hstep : 2 ^ ((i + 1) * 7) = 2 ^ (i * 7) * 128 := by
        rw [Nat.succ_mul, Nat.pow_add]
      have hacc' : acc + (u % 128) * 2 ^ (i * 7) < 2 ^ ((i + 1) * 7) := by
        have h1 : (u % 128) * 2 ^ (i * 7) ≤ 127 * 2 ^ (i * 7) :=
          Nat.mul_le_mul_right _ (by omega)
        have h2 : 2 ^ (i * 7) + 127 * 2 ^ (i * 7) = 2 ^ (i * 7) * 128 := by ring
        omega
      have hu64' : (u / 128) * 2 ^ ((i + 1) * 7) < 2 ^ 64 := by
        calc (u / 128) * 2 ^ ((i + 1) * 7) = (u / 128) * 128 * 2 ^ (i * 7) := by
              rw [hstep]; ring
        _ ≤ u * 2 ^ (i * 7) := Nat.mul_le_mul_right _ (by omega)
        _ < 2 ^ 64 := hu64
      have hrec := ih (u / 128) (Nat.div_lt_self (by omega) (by omega)) rest r (i + 1)
        (acc + (u % 128) * 2 ^ (i * 7)) (by omega) (by simp at hrem; omega) hacc' hu64'
      rw [hmod, hlor, hrec]
      have hval : acc + (u % 128) * 2 ^ (i * 7) + (u / 128) * 2 ^ ((i + 1) * 7)
          = acc + u * 2 ^ (i * 7) := by
        rw [hstep]
        have h3 : (u % 128) * 2 ^ (i * 7) + (u / 128) * (2 ^ (i * 7) * 128)
            = u * 2 ^ (i * 7) := by
          calc (u % 128) * 2 ^ (i * 7) + (u / 128) * (2 ^ (i * 7) * 128)
              = (u % 128 + 128 * (u / 128)) * 2 ^ (i * 7) := by ring
          _ = u * 2 ^ (i * 7) := by rw [Nat.mod_add_div]
        omega
      rw [hval]
      simp only [List.length_cons]
      rw [(by omega : (i + 1) + (encVarNat (u / 128)).length
        = i + ((encVarNat (u / 128)).length + 1))]

/-! ## Wrappers around the loop lemmas -/

theorem uint32_lt (v : Int) : uint32 v < 2 ^ 32 := by
  simp only [uint32]
  omega

theorem uint64_lt (v : Int) : uint64 v < 2 ^ 64 := by
  simp only [uint64]
  omega

theorem encU32_length_le (v : Int) : (encVarNat (uint32 v)).length ≤ 5 := by
  have h := uint32_lt v
  exact encVarNat_length_le 4 (uint32 v) (by omega) (by omega)

theorem encU64_length_le (v : Int) : (encVarNat (uint64 v)).length ≤ 10 := by
  have h := uint64_lt v
  exact encVarNat_length_le 9 (uint64 v) (by omega) (by omega)

theorem lenVarInt_eq_enc (v : Int) : lenVarInt v = (encVarNat (uint32 v)).length := by
  have h := uint32_lt v
  exact (encVarNat_length (by omega)).symm

theorem lenVarLong_eq_enc (v : Int) : lenVarLong v = (encVarNat (uint64 v)).length := by
  have h := uint64_lt v
  exact (encVarNat_length (by omega)).symm

theorem putVarInt_spec (buf : List Nat) (v : Int)
    (hbuf : (encVarNat (uint32 v)).length ≤ buf.length) :
    putVarInt buf v =
      (encVarNat (uint32 v) ++ buf.drop ((encVarNat (uint32 v)).length),
        (encVarNat (uint32 v)).length, none) := by
  unfold putVarInt putVarN maxIntBytes
  rw [putVarNLoop_spec (uint32 v) buf 5 (by have := uint32_lt v; omega)
    (encU32_length_le v) hbuf]

theorem putVarLong_spec (buf : List Nat) (v : Int)
    (hbuf : (encVarNat (uint64 v)).length ≤ buf.length) :
    putVarLong buf v =
      (encVarNat (uint64 v) ++ buf.drop ((encVarNat (uint64 v)).length),
        (encVarNat (uint64 v)).length, none) := by
  unfold putVarLong putVarN maxLongBytes
  rw [putVarNLoop_spec (uint64 v) buf 10 (uint64_lt v) (encU64_length_le v) hbuf]

theorem getVarN_enc32 (v : Int) (rest : List Nat) :
    getVarN (encVarNat (uint32 v) ++ rest) 5 =
      (uint32 v, (encVarNat (uint32 v)).length, none) := by
  unfold getVarN
  rw [getVarNLoop_spec (uint32 v) rest 5 0 0 (by have := uint32_lt v; omega)
    (encU32_length_le v) (by norm_num) (by have := uint32_lt v; omega)]
  norm_num

theorem getVarN_enc64 (v : Int) (rest : List Nat) :
    getVarN (encVarNat (uint64 v) ++ rest) 10 =
      (uint64 v, (encVarNat (uint64 v)).length, none) := by
  unfold getVarN
  rw [getVarNLoop_spec (uint64 v) rest 10 0 0 (uint64_lt v)
    (encU64_length_le v) (by norm_num) (by have := uint64_lt v; omega)]
  norm_num

theorem int32_round {v : Int} (h1 : -(2 : Int) ^ 31 ≤ v) (h2 : v < 2 ^ 31) :
    int32ofUInt64 (uint32 v) = v := by
  simp only [int32ofUInt64, uint32]
  split_ifs <;> omega

theorem int64_round {v : Int} (h1 : -(2 : Int) ^ 63 ≤ v) (h2 : v < 2 ^ 63) :
    int64ofUInt64 (uint64 v) = v := by
  simp only [int64ofUInt64, uint64]
  split_ifs <;> omega

theorem getVarInt_enc (v : Int) (rest : List Nat) (h1 : -(2 : Int) ^ 31 ≤ v)
    (h2 : v < 2 ^ 31) :
    getVarInt (encVarNat (uint32 v) ++ rest) = (v, lenVarInt v, none) := by
  unfold getVarInt maxIntBytes
  rw [getVarN_enc32 v rest]
  simp only []
  rw [int32_round h1 h2, lenVarInt_eq_enc]

theorem getVarLong_enc (v : Int) (rest : List Nat) (h1 : -(2 : Int) ^ 63 ≤ v)
    (h2 : v < 2 ^ 63) :
    getVarLong (encVarNat (uint64 v) ++ rest) = (v, lenVarLong v, none) := by
  unfold getVarLong maxLongBytes
  rw [getVarN_enc64 v rest]
  simp only []
  rw [int64_round h1 h2, lenVarLong_eq_enc]

/-! ## Claim C1: VarInt/VarLong round-trip -/

/-- C1: for every int32 value v and destination buffer of length at least 5,
putVarInt succeeds, writes exactly the lenVarInt v bytes of the VarInt
encoding, and getVarInt on those bytes returns (v, lenVarInt v) with no
error; the analogous round-trip holds for every int64 value through
putVarLong/getVarLong with a buffer of length at least 10. -/
theorem varint_roundtrip (v w : Int) (buf bufL : List Nat)
    (hv1 : -(2 : Int) ^ 31 ≤ v) (hv2 : v < 2 ^ 31) (hbuf : 5 ≤ buf.length)
    (hw1 : -(2 : Int) ^ 63 ≤ w) (hw2 : w < 2 ^ 63) (hbufL : 10 ≤ bufL.length) :
    putVarInt buf v = (encVarNat (uint32 v) ++ buf.drop (lenVarInt v), lenVarInt v, none) ∧
    getVarInt (encVarNat (uint32 v)) = (v, lenVarInt v, none) ∧
    putVarLong bufL w = (encVarNat (uint64 w) ++ bufL.drop (lenVarLong w), lenVarLong w, none) ∧
    getVarLong (encVarNat (uint64 w)) = (w, lenVarLong w, none) := by
  refine ⟨?_, ?_, ?_, ?_⟩
  · rw [lenVarInt_eq_enc]
    exact putVarInt_spec buf v (le_trans (encU32_length_le v) hbuf)
  · have h := getVarInt_enc v [] hv1 hv2
    rwa [List.append_nil] at h
  · rw [lenVarLong_eq_enc]
    exact putVarLong_spec bufL w (le_trans (encU64_length_le w) hbufL)
  · have h := getVarLong_enc w [] hw1 hw2
    rwa [List.append_nil] at h

/-- Witness for `varint_roundtrip` at v = 300, w = -2 with fresh buffers. -/
theorem varint_roundtrip_witness :
    putVarInt (List.replicate 5 0) 300 =
      (encVarNat (uint32 300) ++ (List.replicate 5 0).drop (lenVarInt 300),
        lenVarInt 300, none) ∧
    getVarInt (encVarNat (uint32 300)) = (300, lenVarInt 300, none) ∧
    putVarLong (List.replicate 10 0) (-2) =
      (encVarNat (uint64 (-2)) ++ (List.replicate 10 0).drop (lenVarLong (-2)),
        lenVarLong (-2), none) ∧
    getVarLong (encVarNat (uint64 (-2))) = (-2, lenVarLong (-2), none) :=
  varint_roundtrip 300 (-2) (List.replicate 5 0) (List.replicate 10 0)
    (by decide) (by decide) (by decide) (by decide) (by decide) (by decide)

/-! ## Claim C8: length function, agreement with the encoder -/

theorem bitsLen64_of_range {u k : Nat} (h1 : 2 ^ k ≤ u) (h2 : u < 2 ^ (k + 1))
    (hk : k + 1 ≤ 64) : bitsLen64 u = k + 1 := by
  have hle : bitsLenAux 64 u ≤ k + 1 := bitsLenAux_le_of_lt 64 u (k + 1) h2
  have hgt : k < bitsLenAux 64 u := bitsLenAux_gt 64 k u h1 (by omega)
  unfold bitsLen64
  omega

theorem putVarNLoop_count : ∀ v, v < 2 ^ 64 → ∀ buf rem buf' n,
    putVarNLoop buf v rem = (buf', some n) → n = (encVarNat v).length := by
  intro v
  induction v using Nat.strong_induction_on with
  | _ v ih =>
    intro h64 buf rem buf' n h
    match buf, rem with
    | buf, 0 => exact absurd (congrArg Prod.snd h) (by simp [putVarNLoop])
    | [], r + 1 => exact absurd (congrArg Prod.snd h) (by simp [putVarNLoop])
    | b :: bs, r + 1 =>
      rw [encVarNat_eq h64]
      by_cases hv : v < 128
      · rw [if_pos hv]
        have hsnd := congrArg Prod.snd h
        simp only [putVarNLoop, if_pos hv] at hsnd
        simp at hsnd ⊢
        omega
      · rw [if_neg hv]
        rcases hopt : putVarNLoop bs (v >>> 7) r with ⟨bs', o⟩
        have hsnd := congrArg Prod.snd h
        simp only [putVarNLoop, if_neg hv, hopt] at hsnd
        cases o with
        | none => simp at hsnd
        | some m =>
          simp at hsnd
          rw [Nat.shiftRight_eq_div_pow] at hopt
          have hm := ih (v / 2 ^ 7) (Nat.div_lt_self (by omega) (by norm_num))
            (by omega) bs r bs' m hopt
          simp only [List.length_cons]
          have : v / 2 ^ 7 = v / 128 := by norm_num
          rw [this] at hm
          omega

theorem putVarN_success_count {buf : List Nat} {u maxBytes : Nat} {buf' : List Nat}
    {n : Nat} (h64 : u < 2 ^ 64) (h : putVarN buf u maxBytes = (buf', n, none)) :
    n = (encVarNat u).length := by
  unfold putVarN at h
  rcases hopt : putVarNLoop buf u maxBytes with ⟨bs', o⟩
  rw [hopt] at h
  cases o with
  | some m =>
    simp only [Prod.mk.injEq] at h
    obtain ⟨-, h2, -⟩ := h
    subst h2
    exact putVarNLoop_count u h64 buf maxBytes bs' m hopt
  | none =>
    by_cases hlen : buf.length < maxBytes
    · simp [hlen] at h
    · simp [hlen] at h

/-- C8: lenVarInt computes `1 + (bit_length(u) - 1) / 7` over the unsigned
32-bit reinterpretation (`bit_length 0` treated as 1), equals the consumed
count of every successful putVarInt, and every negative value takes the
maximum width (5); likewise lenVarLong/putVarLong with maximum width 10. -/
theorem lenVar_agreement (v w : Int)
    (hv1 : -(2 : Int) ^ 31 ≤ v) (hv2 : v < 2 ^ 31)
    (hw1 : -(2 : Int) ^ 63 ≤ w) (hw2 : w < 2 ^ 63) :
    lenVarInt v = 1 + (max (bitsLen64 (uint32 v)) 1 - 1) / 7 ∧
    (∀ buf buf' n, putVarInt buf v = (buf', n, none) → n = lenVarInt v) ∧
    lenVarLong w = 1 + (max (bitsLen64 (uint64 w)) 1 - 1) / 7 ∧
    (∀ buf buf' n, putVarLong buf w = (buf', n, none) → n = lenVarLong w) ∧
    (v < 0 → lenVarInt v = 5) ∧ (w < 0 → lenVarLong w = 10) ∧
    lenVarInt (-1) = 5 ∧ lenVarLong (-1) = 10 := by
  refine ⟨?_, ?_, ?_, ?_, ?_, ?_, by decide, by decide⟩
  · unfold lenVarInt lenVarN
    omega
  · intro buf buf' n h
    rw [lenVarInt_eq_enc]
    exact putVarN_success_count (by have := uint32_lt v; omega) h
  · unfold lenVarLong lenVarN
    omega
  · intro buf buf' n h
    rw [lenVarLong_eq_enc]
    exact putVarN_success_count (uint64_lt w) h
  · intro hneg
    have hu1 : 2 ^ 31 ≤ uint32 v := by
      simp only [uint32]
      omega
    have hu2 : uint32 v < 2 ^ 32 := uint32_lt v
    unfold lenVarInt lenVarN
    rw [bitsLen64_of_range hu1 (by omega) (by omega)]
  · intro hneg
    have hu1 : 2 ^ 63 ≤ uint64 w := by
      simp only [uint64]
      omega
    have hu2 : uint64 w < 2 ^ 64 := uint64_lt w
    unfold lenVarLong lenVarN
    rw [bitsLen64_of_range hu1 (by omega) (by omega)]

/-- Witness for `lenVar_agreement` at v = -7, w = -9. -/
theorem lenVar_agreement_witness :
    lenVarInt (-7) = 1 + (max (bitsLen64 (uint32 (-7))) 1 - 1) / 7 ∧
    lenVarLong (-9) = 1 + (max (bitsLen64 (uint64 (-9))) 1 - 1) / 7 ∧
    lenVarInt (-7) = 5 ∧ lenVarLong (-9) = 10 ∧
    lenVarInt (-1) = 5 ∧ lenVarLong (-1) = 10 := by
  have h := lenVar_agreement (-7) (-9) (by decide) (by decide) (by decide) (by decide)
  exact ⟨h.1, h.2.2.1, h.2.2.2.2.1 (by decide), h.2.2.2.2.2.1 (by decide),
    h.2.2.2.2.2.2.1, h.2.2.2.2.2.2.2⟩

/-! ## Claim C5: error characterization of getVarInt/getVarLong -/

theorem cont_bit_iff {b : Nat} (hb : b < 256) : b &&& 128 ≠ 0 ↔ 128 ≤ b := by
  rw [Ne, land128_eq_zero_iff]
  omega

theorem getVarNLoop_eq_none_iff : ∀ bs rem i acc,
    getVarNLoop bs rem i acc = none ↔ ∀ b ∈ bs.take rem, b &&& 128 ≠ 0 := by
  intro bs
  induction bs with
  | nil => intro rem i acc; cases rem <;> simp [getVarNLoop]
  | cons b bs ih =>
    intro rem i acc
    cases rem with
    | zero => simp [getVarNLoop]
    | succ rem =>
      simp only [getVarNLoop, List.take_succ_cons, List.mem_cons]
      by_cases hb : b &&& 128 = 0
      · simp only [if_pos hb]
        constructor
        · intro h; exact absurd h (by simp)
        · intro h
          exact absurd hb (h b (Or.inl rfl))
      · rw [if_neg hb, ih rem (i + 1) _]
        constructor
        · intro h c hc
          rcases hc with rfl | hc
          · exact hb
          · exact h c hc
        · intro h c hc
          exact h c (Or.inr hc)

theorem getVarN_of_loop_none {buf : List Nat} {maxBytes : Nat}
    (h : getVarNLoop buf maxBytes 0 0 = none) :
    getVarN buf maxBytes =
      if buf.length < maxBytes then (0, buf.length, some .bufTooSmall)
      else (0, maxBytes, some .valueTooLarge) := by
  unfold getVarN
  rw [h]

theorem getVarN_of_loop_some {buf : List Nat} {maxBytes v n : Nat}
    (h : getVarNLoop buf maxBytes 0 0 = some (v, n)) :
    getVarN buf maxBytes = (v, n, none) := by
  unfold getVarN
  rw [h]

theorem getVarN_error_spec (buf : List Nat) (maxBytes : Nat)
    (hb : ∀ b ∈ buf, b < 256) :
    ((getVarN buf maxBytes).2.2 = some .bufTooSmall ↔
      buf.length < maxBytes ∧ ∀ b ∈ buf, 128 ≤ b) ∧
    ((getVarN buf maxBytes).2.2 = some .bufTooSmall →
      (getVarN buf maxBytes).2.1 = buf.length) ∧
    ((getVarN buf maxBytes).2.2 = some .valueTooLarge ↔
      maxBytes ≤ buf.length ∧ ∀ b ∈ buf.take maxBytes, 128 ≤ b) ∧
    ((getVarN buf maxBytes).2.2 = some .valueTooLarge →
      (getVarN buf maxBytes).2.1 = maxBytes) := by
  rcases hloop : getVarNLoop buf maxBytes 0 0 with - | ⟨v, n⟩
  · have hall : ∀ b ∈ buf.take maxBytes, b &&& 128 ≠ 0 :=
      (getVarNLoop_eq_none_iff buf maxBytes 0 0).mp hloop
    rw [getVarN_of_loop_none hloop]
    by_cases hlen : buf.length < maxBytes
    · rw [if_pos hlen]
      refine ⟨⟨fun _ => ⟨hlen, ?_⟩, fun _ => rfl⟩, fun _ => rfl, ⟨?_, ?_⟩, ?_⟩
      · intro b hbm
        have hmem : b ∈ buf.take maxBytes := by
          rw [List.take_of_length_le (le_of_lt hlen)]
          exact hbm
        exact (cont_bit_iff (hb b hbm)).mp (hall b hmem)
      · intro h
        exact absurd h (by simp)
      · rintro ⟨h1, -⟩
        exact absurd h1 (by omega)
      · intro h
        exact absurd h (by simp)
    · rw [if_neg hlen]
      refine ⟨⟨?_, ?_⟩, ?_, ⟨fun _ => ⟨by omega, ?_⟩, fun _ => rfl⟩, fun _ => rfl⟩
      · intro h
        exact absurd h (by simp)
      · rintro ⟨h1, -⟩
        exact absurd h1 (by omega)
      · intro h
        exact absurd h (by simp)
      · intro b hbm
        have hmem : b ∈ buf := List.take_subset _ _ hbm
        exact (cont_bit_iff (hb b hmem)).mp (hall b hbm)
  · have hnone : ¬(∀ b ∈ buf.take maxBytes, b &&& 128 ≠ 0) := by
      intro hx
      have h2 := (getVarNLoop_eq_none_iff buf maxBytes 0 0).mpr hx
      rw [h2] at hloop
      exact Option.noConfusion hloop
    have hns : ¬(∀ b ∈ buf.take maxBytes, 128 ≤ b) := by
      intro hx
      apply hnone
      intro b hbm
      exact (cont_bit_iff (hb b (List.take_subset _ _ hbm))).mpr (hx b hbm)
    rw [getVarN_of_loop_some hloop]
    refine ⟨⟨?_, ?_⟩, ?_, ⟨?_, ?_⟩, ?_⟩
    · intro h
      exact absurd h (by simp)
    · rintro ⟨h1, h2⟩
      exact absurd (fun b hbm => h2 b (List.take_subset _ _ hbm)) hns
    · intro h
      exact absurd h (by simp)
    · intro h
      exact absurd h (by simp)
    · rintro ⟨h1, h2⟩
      exact absurd h2 hns
    · intro h
      exact absurd h (by simp)

/-- C5: getVarInt fails bufTooSmall exactly on buffers of fewer than 5 bytes
all carrying the continuation bit, with consumed = bytes available, and fails
valueTooLarge exactly when the first 5 of at least 5 bytes all carry the
continuation bit, with consumed = 5; likewise getVarLong with width 10; the
empty buffer fails bufTooSmall and six continuation bytes fail
valueTooLarge. -/
theorem getVar_error_characterization (buf : List Nat) (hb : ∀ b ∈ buf, b < 256) :
    ((getVarInt buf).2.2 = some .bufTooSmall ↔
      buf.length < 5 ∧ ∀ b ∈ buf, 128 ≤ b) ∧
    ((getVarInt buf).2.2 = some .bufTooSmall → (getVarInt buf).2.1 = buf.length) ∧
    ((getVarInt buf).2.2 = some .valueTooLarge ↔
      5 ≤ buf.length ∧ ∀ b ∈ buf.take 5, 128 ≤ b) ∧
    ((getVarInt buf).2.2 = some .valueTooLarge → (getVarInt buf).2.1 = 5) ∧
    ((getVarLong buf).2.2 = some .bufTooSmall ↔
      buf.length < 10 ∧ ∀ b ∈ buf, 128 ≤ b) ∧
    ((getVarLong buf).2.2 = some .bufTooSmall → (getVarLong buf).2.1 = buf.length) ∧
    ((getVarLong buf).2.2 = some .valueTooLarge ↔
      10 ≤ buf.length ∧ ∀ b ∈ buf.take 10, 128 ≤ b) ∧
    ((getVarLong buf).2.2 = some .valueTooLarge → (getVarLong buf).2.1 = 10) ∧
    getVarInt [] = (0, 0, some .bufTooSmall) ∧
    getVarInt (List.replicate 6 128) = (0, 5, some .valueTooLarge) := by
  have h5 := getVarN_error_spec buf 5 hb
  have h10 := getVarN_error_spec buf 10 hb
  exact ⟨h5.1, h5.2.1, h5.2.2.1, h5.2.2.2, h10.1, h10.2.1, h10.2.2.1, h10.2.2.2,
    by decide, by decide⟩

/-- Witness for `getVar_error_characterization`, applied at the buffer [0xff];
the projected conclusions are the two concrete failure facts. -/
theorem getVar_error_characterization_witness :
    getVarInt [] = (0, 0, some .bufTooSmall) ∧
    getVarInt (List.replicate 6 128) = (0, 5, some .valueTooLarge) := by
  have h := getVar_error_characterization [255] (by decide)
  exact ⟨h.2.2.2.2.2.2.2.2.1, h.2.2.2.2.2.2.2.2.2⟩

/-! ## Claim C10: the two getVarN conventions differ -/

/-- C10: on the one-byte buffer [0x80] with maximum width 5, the types.go
getVarN reports consumed = 1 (bytes available) while the varint.go getVarN
reports consumed = 5 (maximum width), both failing bufTooSmall, so the two
implementations are not extensionally equal. -/
theorem getVarN_conventions_differ :
    getVarN [128] 5 = (0, 1, some .bufTooSmall) ∧
    VarintGo.getVarN [128] 5 = (0, 5, some .bufTooSmall) ∧
    getVarN [128] 5 ≠ VarintGo.getVarN [128] 5 := by decide

/-! ## Reduction of getString after a successful length decode -/

theorem getString_of_ok {buf : List Nat} {L : Int} {m : Nat}
    (h : getVarInt buf = (L, m, none)) :
    getString buf =
      (if L > 32767 then some ([], m, some .valueTooLarge)
       else if (buf.length : Int) < m + L then some ([], m, some .bufTooSmall)
       else if L < 0 then none
       else some ((buf.drop m).take L.toNat, m + L.toNat, none)) := by
  unfold getString
  rw [h]

theorem part000_getString_of_ok {buf : List Nat} {L : Int} {m : Nat}
    (h : getVarInt buf = (L, m, none)) :
    Part000.getString buf =
      (if L > 32767 then some ([], m, some .stringTooLong)
       else if (buf.length : Int) < m + L then some ([], m, some .bufTooSmall)
       else if L < 0 then none
       else some ((buf.drop m).take L.toNat, m + L.toNat, none)) := by
  unfold Part000.getString
  rw [h]

/-! ## Claim C6: getString truncation reporting -/

/-- C6 counterexample: on [0x02, 0x41] the declared length is 2 with only 1
byte remaining after the prefix; getString returns consumed 1 (the prefix
length alone), not prefix + declared = 3 as the claim states. -/
theorem getString_truncation_counterexample :
    getString [2, 65] = some ([], 1, some .bufTooSmall) ∧ (1 : Nat) ≠ 1 + 2 := by decide

/-- C6 (amended): when the declared length L (0 ≤ L ≤ 32767) exceeds the
bytes remaining after the prefix, getString fails bufTooSmall with consumed
equal to the prefix byte length only. -/
theorem getString_truncation_consumed (buf : List Nat) (L : Int) (m : Nat)
    (h : getVarInt buf = (L, m, none)) (h0 : 0 ≤ L) (h1 : L ≤ 32767)
    (h2 : (buf.length : Int) < m + L) :
    getString buf = some ([], m, some .bufTooSmall) := by
  rw [getString_of_ok h, if_neg (by omega), if_pos h2]

/-- Witness for `getString_truncation_consumed` at the buffer [0x03, 0x41]. -/
theorem getString_truncation_consumed_witness :
    getString [3, 65] = some ([], 1, some .bufTooSmall) :=
  getString_truncation_consumed [3, 65] 3 1 (by decide) (by decide) (by decide) (by decide)

/-! ## Claim C7: stringTooLong versus valueTooLarge -/

/-- C7 counterexample: [0x80, 0x80, 0x02] declares length 32768 > 32767; the
types.go getString fails with the generic valueTooLarge, which is not the
distinct stringTooLong error the claim names. -/
theorem stringTooLong_counterexample :
    getString [128, 128, 2] = some ([], 3, some .valueTooLarge) ∧
    Err.valueTooLarge ≠ Err.stringTooLong := by decide

/-- C7 (amended): on a declared length greater than 32767 the part_000
getString fails with the dedicated stringTooLong error while the types.go
getString fails with the generic valueTooLarge error, both with consumed =
prefix length; putString of a string longer than 32767 bytes fails the same
split way before writing anything. -/
theorem stringTooLong_split (buf s : List Nat) (L : Int) (m : Nat)
    (h : getVarInt buf = (L, m, none)) (hL : L > 32767) (hs : s.length > 32767) :
    getString buf = some ([], m, some .valueTooLarge) ∧
    Part000.getString buf = some ([], m, some .stringTooLong) ∧
    putString buf s = (buf, 0, some .valueTooLarge) ∧
    Part000.putString buf s = (buf, 0, some .stringTooLong) := by
  refine ⟨?_, ?_, ?_, ?_⟩
  · rw [getString_of_ok h, if_pos hL]
  · rw [part000_getString_of_ok h, if_pos hL]
  · unfold putString
    rw [if_pos hs]
  · unfold Part000.putString
    rw [if_pos hs]

/-- Witness for `stringTooLong_split` at [0x80, 0x80, 0x02] and a 32768-byte
string. -/
theorem stringTooLong_split_witness :
    getString [128, 128, 2] = some ([], 3, some Err.valueTooLarge) ∧
    Part000.getString [128, 128, 2] = some ([], 3, some Err.stringTooLong) ∧
    putString [128, 128, 2] (List.replicate 32768 0) =
      ([128, 128, 2], 0, some Err.valueTooLarge) ∧
    Part000.putString [128, 128, 2] (List.replicate 32768 0) =
      ([128, 128, 2], 0, some Err.stringTooLong) :=
  stringTooLong_split [128, 128, 2] (List.replicate 32768 0) 32768 3
    (by decide) (by decide) (by rw [List.length_replicate]; decide)

/-! ## Claim C3: getPacket can panic on a negative payload length -/

/-- C3 (violated by the code): on the buffer [0x00, 0x00] the total length
decodes to 0 and the opcode VarInt occupies 1 byte, so the computed payload
length int(length) - m is -1, the bounds check len(buf) < n + l passes, and
`make([]byte, l)` panics at runtime (modelled by `none`) instead of
returning a packet or a sentinel error. -/
theorem getPacket_negative_length_panics : getPacket [0, 0] = none := by decide

/-! ## Position field arithmetic -/

theorem putField_x (x : Int) :
    putField x 26 38 = (x % (2 : Int) ^ 26).toNat * 2 ^ 38 := by
  unfold putField uint64
  norm_num [Nat.shiftLeft_eq, Nat.shiftRight_eq_div_pow]
  omega

theorem putField_y (y : Int) :
    putField y 12 26 = (y % (2 : Int) ^ 12).toNat * 2 ^ 26 := by
  unfold putField uint64
  norm_num [Nat.shiftLeft_eq, Nat.shiftRight_eq_div_pow]
  omega

theorem putField_z (z : Int) :
    putField z 26 0 = (z % (2 : Int) ^ 26).toNat := by
  unfold putField uint64
  norm_num [Nat.shiftLeft_eq, Nat.shiftRight_eq_div_pow]
  omega

theorem position_word_eq (x y z : Int) :
    putField x 26 38 ||| putField y 12 26 ||| putField z 26 0 =
      (x % (2 : Int) ^ 26).toNat * 2 ^ 38 + (y % (2 : Int) ^ 12).toNat * 2 ^ 26 +
        (z % (2 : Int) ^ 26).toNat := by
  rw [putField_x, putField_y, putField_z]
  have hY : (y % (2 : Int) ^ 12).toNat * 2 ^ 26 < 2 ^ 38 := by omega
  have hZ : (z % (2 : Int) ^ 26).toNat < 2 ^ 26 := by omega
  rw [lor_mul_pow_eq_add hY]
  have e : (x % (2 : Int) ^ 26).toNat * 2 ^ 38 + (y % (2 : Int) ^ 12).toNat * 2 ^ 26
      = ((x % (2 : Int) ^ 26).toNat * 2 ^ 12 + (y % (2 : Int) ^ 12).toNat) * 2 ^ 26 := by
    ring
  rw [e, lor_mul_pow_eq_add hZ, ← e]

theorem beUint64_bePutUint64 (v : Nat) (rest : List Nat) :
    beUint64 (bePutUint64 v ++ rest) = v % 2 ^ 64 := by
  show v / 2 ^ 56 % 256 * 2 ^ 56 + v / 2 ^ 48 % 256 * 2 ^ 48 + v / 2 ^ 40 % 256 * 2 ^ 40 +
      v / 2 ^ 32 % 256 * 2 ^ 32 + v / 2 ^ 24 % 256 * 2 ^ 24 + v / 2 ^ 16 % 256 * 2 ^ 16 +
      v / 2 ^ 8 % 256 * 2 ^ 8 + v % 256 = v % 2 ^ 64
  omega

theorem getField_x (v : Nat) (hv : v < 2 ^ 64) :
    getField v 26 38 = signExtend 26 (v / 2 ^ 38) := by
  unfold getField int64ofUInt64 signExtend
  norm_num [Nat.shiftLeft_eq]
  split_ifs <;> omega

theorem getField_y (v : Nat) :
    getField v 12 26 = signExtend 12 (v / 2 ^ 26 % 2 ^ 12) := by
  unfold getField int64ofUInt64 signExtend
  norm_num [Nat.shiftLeft_eq]
  split_ifs <;> omega

theorem getField_z (v : Nat) :
    getField v 26 0 = signExtend 26 (v % 2 ^ 26) := by
  unfold getField int64ofUInt64 signExtend
  norm_num [Nat.shiftLeft_eq]
  split_ifs <;> omega

theorem signExtend26_emod {x : Int} (h1 : -(2 : Int) ^ 25 ≤ x) (h2 : x < 2 ^ 25) :
    signExtend 26 ((x % (2 : Int) ^ 26).toNat) = x := by
  unfold signExtend
  norm_num
  split_ifs <;> omega

theorem signExtend12_emod {y : Int} (h1 : -(2 : Int) ^ 11 ≤ y) (h2 : y < 2 ^ 11) :
    signExtend 12 ((y % (2 : Int) ^ 12).toNat) = y := by
  unfold signExtend
  norm_num
  split_ifs <;> omega

theorem int32ofInt_id {v : Int} (h1 : -(2 : Int) ^ 31 ≤ v) (h2 : v < 2 ^ 31) :
    int32ofInt v = v := by
  unfold int32ofInt int32ofUInt64 uint64
  split_ifs <;> omega

theorem int16ofInt_id {v : Int} (h1 : -(2 : Int) ^ 15 ≤ v) (h2 : v < 2 ^ 15) :
    int16ofInt v = v := by
  unfold int16ofInt uint64
  split_ifs <;> omega

theorem signExtend26_bounds (u : Nat) :
    -(2 : Int) ^ 25 ≤ signExtend 26 u ∧ signExtend 26 u < 2 ^ 25 := by
  unfold signExtend
  norm_num
  split_ifs <;> omega

theorem signExtend12_bounds (u : Nat) :
    -(2 : Int) ^ 11 ≤ signExtend 12 u ∧ signExtend 12 u < 2 ^ 11 := by
  unfold signExtend
  norm_num
  split_ifs <;> omega

theorem getPosition_of_not_short {buf : List Nat} (h : ¬ buf.length < 8) :
    getPosition buf =
      (⟨int32ofInt (getField (beUint64 buf) 26 38),
        int16ofInt (getField (beUint64 buf) 12 26),
        int32ofInt (getField (beUint64 buf) 26 0)⟩, 8, none) := by
  unfold getPosition positionLen
  rw [if_neg h]

/-! ## Claim C4: position round-trip -/

/-- C4: for field values representable in 26/12/26 signed bits, putPosition
into an 8-byte buffer succeeds with consumed 8 and getPosition on the
written bytes returns the original x, y, z with consumed 8; moreover the
spec's concrete scenarios hold: Position{257, 42, -513} encodes to
00 00 40 40 ab ff fd ff, those bytes decode back to it, and the zero
position encodes to eight zero bytes. -/
theorem position_roundtrip (x y z : Int) (buf : List Nat)
    (hx1 : -(2 : Int) ^ 25 ≤ x) (hx2 : x < 2 ^ 25)
    (hy1 : -(2 : Int) ^ 11 ≤ y) (hy2 : y < 2 ^ 11)
    (hz1 : -(2 : Int) ^ 25 ≤ z) (hz2 : z < 2 ^ 25)
    (hbuf : buf.length = 8) :
    (putPosition buf ⟨x, y, z⟩).2 = (8, none) ∧
    getPosition (putPosition buf ⟨x, y, z⟩).1 = (⟨x, y, z⟩, 8, none) ∧
    putPosition (List.replicate 8 0) ⟨257, 42, -513⟩ =
      ([0x00, 0x00, 0x40, 0x40, 0xab, 0xff, 0xfd, 0xff], 8, none) ∧
    getPosition [0x00, 0x00, 0x40, 0x40, 0xab, 0xff, 0xfd, 0xff] =
      (⟨257, 42, -513⟩, 8, none) ∧
    putPosition (List.replicate 8 7) ⟨0, 0, 0⟩ = (List.replicate 8 0, 8, none) := by
  have hput : putPosition buf ⟨x, y, z⟩ =
      (bePutUint64 (putField x 26 38 ||| putField y 12 26 ||| putField z 26 0) ++
        buf.drop 8, 8, none) := by
    unfold putPosition positionLen
    rw [if_neg (by omega)]
  have hdrop : buf.drop 8 = [] := List.drop_eq_nil_of_le (by omega)
  have hVsum := position_word_eq x y z
  set V := putField x 26 38 ||| putField y 12 26 ||| putField z 26 0 with hV
  have hV64 : V < 2 ^ 64 := by
    rw [hVsum]
    omega
  refine ⟨?_, ?_, by decide, by decide, by decide⟩
  · rw [hput]
  · rw [hput, hdrop]
    have hlen : (bePutUint64 V ++ ([] : List Nat)).length = 8 := by
      simp [bePutUint64]
    show getPosition (bePutUint64 V ++ []) = _
    rw [getPosition_of_not_short (by omega)]
    have hbe : beUint64 (bePutUint64 V ++ []) = V := by
      rw [beUint64_bePutUint64, Nat.mod_eq_of_lt hV64]
    rw [hbe]
    have hVdiv : V / 2 ^ 38 = (x % (2 : Int) ^ 26).toNat := by
      rw [hVsum]
      omega
    have hVmid : V / 2 ^ 26 % 2 ^ 12 = (y % (2 : Int) ^ 12).toNat := by
      rw [hVsum]
      omega
    have hVlow : V % 2 ^ 26 = (z % (2 : Int) ^ 26).toNat := by
      rw [hVsum]
      omega
    rw [getField_x V hV64, getField_y V, getField_z V, hVdiv, hVmid, hVlow,
      signExtend26_emod hx1 hx2, signExtend12_emod hy1 hy2, signExtend26_emod hz1 hz2,
      int32ofInt_id (by omega) (by omega), int16ofInt_id (by omega) (by omega),
      int32ofInt_id (by omega) (by omega)]

/-- Witness for `position_roundtrip` at x = 257, y = 42, z = -513 on a fresh
8-byte buffer. -/
theorem position_roundtrip_witness :
    (putPosition (List.replicate 8 0) ⟨257, 42, -513⟩).2 = (8, none) ∧
    getPosition (putPosition (List.replicate 8 0) ⟨257, 42, -513⟩).1 =
      (⟨257, 42, -513⟩, 8, none) := by
  have h := position_roundtrip 257 42 (-513) (List.replicate 8 0)
    (by decide) (by decide) (by decide) (by decide) (by decide) (by decide) (by decide)
  exact ⟨h.1, h.2.1⟩

/-! ## Claim C9: getPosition extracts sign-extended bit fields -/

theorem exists_cons_of_length_succ {l : List Nat} {n : Nat} (h : l.length = n + 1) :
    ∃ b t, l = b :: t ∧ t.length = n := by
  cases l with
  | nil => simp at h
  | cons b t => exact ⟨b, t, rfl, by simpa using h⟩

/-- C9: on every 8-byte buffer, getPosition interprets the bytes as a
big-endian 64-bit word v and returns x = sign-extend-26 of bits 63..38,
y = sign-extend-12 of bits 37..26, z = sign-extend-26 of bits 25..0, with
consumed 8 and no error. -/
theorem getPosition_sign_extension (buf : List Nat) (h8 : buf.length = 8)
    (hb : ∀ b ∈ buf, b < 256) :
    getPosition buf =
      (⟨signExtend 26 (beUint64 buf / 2 ^ 38),
        signExtend 12 (beUint64 buf / 2 ^ 26 % 2 ^ 12),
        signExtend 26 (beUint64 buf % 2 ^ 26)⟩, 8, none) := by
  obtain ⟨b0, t0, rfl, h0⟩ := exists_cons_of_length_succ h8
  obtain ⟨b1, t1, rfl, h1⟩ := exists_cons_of_length_succ h0
  obtain ⟨b2, t2, rfl, h2⟩ := exists_cons_of_length_succ h1
  obtain ⟨b3, t3, rfl, h3⟩ := exists_cons_of_length_succ h2
  obtain ⟨b4, t4, rfl, h4⟩ := exists_cons_of_length_succ h3
  obtain ⟨b5, t5, rfl, h5⟩ := exists_cons_of_length_succ h4
  obtain ⟨b6, t6, rfl, h6⟩ := exists_cons_of_length_succ h5
  obtain ⟨b7, t7, rfl, h7⟩ := exists_cons_of_length_succ h6
  have ht7 : t7 = [] := List.eq_nil_of_length_eq_zero h7
  subst ht7
  have hV : beUint64 [b0, b1, b2, b3, b4, b5, b6, b7] < 2 ^ 64 := by
    have e0 : b0 < 256 := hb b0 (by simp)
    have e1 : b1 < 256 := hb b1 (by simp)
    have e2 : b2 < 256 := hb b2 (by simp)
    have e3 : b3 < 256 := hb b3 (by simp)
    have e4 : b4 < 256 := hb b4 (by simp)
    have e5 : b5 < 256 := hb b5 (by simp)
    have e6 : b6 < 256 := hb b6 (by simp)
    have e7 : b7 < 256 := hb b7 (by simp)
    show b0 * 2 ^ 56 + b1 * 2 ^ 48 + b2 * 2 ^ 40 + b3 * 2 ^ 32 + b4 * 2 ^ 24 +
      b5 * 2 ^ 16 + b6 * 2 ^ 8 + b7 < 2 ^ 64
    omega
  rw [getPosition_of_not_short (by simp)]
  rw [getField_x _ hV, getField_y _, getField_z _]
  have hsx := signExtend26_bounds (beUint64 [b0, b1, b2, b3, b4, b5, b6, b7] / 2 ^ 38)
  have hsy := signExtend12_bounds (beUint64 [b0, b1, b2, b3, b4, b5, b6, b7] / 2 ^ 26 % 2 ^ 12)
  have hsz := signExtend26_bounds (beUint64 [b0, b1, b2, b3, b4, b5, b6, b7] % 2 ^ 26)
  rw [int32ofInt_id (by omega) (by omega), int16ofInt_id (by omega) (by omega),
    int32ofInt_id (by omega) (by omega)]

/-- Witness for `getPosition_sign_extension` at the spec's example bytes. -/
theorem getPosition_sign_extension_witness :
    getPosition [0x00, 0x00, 0x40, 0x40, 0xab, 0xff, 0xfd, 0xff] =
      (⟨signExtend 26 (beUint64 [0x00, 0x00, 0x40, 0x40, 0xab, 0xff, 0xfd, 0xff] / 2 ^ 38),
        signExtend 12 (beUint64 [0x00, 0x00, 0x40, 0x40, 0xab, 0xff, 0xfd, 0xff] / 2 ^ 26 % 2 ^ 12),
        signExtend 26 (beUint64 [0x00, 0x00, 0x40, 0x40, 0xab, 0xff, 0xfd, 0xff] % 2 ^ 26)⟩,
        8, none) :=
  getPosition_sign_extension [0x00, 0x00, 0x40, 0x40, 0xab, 0xff, 0xfd, 0xff]
    (by decide) (by decide)

/-! ## Claim C2: packet round-trip -/

theorem putPacket_spec (pid : Int) (pdata buf : List Nat)
    (hlen : lenVarInt pid + pdata.length ≤ 2147483647)
    (hbuf : packetWireLength ⟨pid, pdata⟩ ≤ buf.length) :
    putPacket buf ⟨pid, pdata⟩ =
      (packetBytes ⟨pid, pdata⟩ ++ buf.drop (packetWireLength ⟨pid, pdata⟩),
        packetWireLength ⟨pid, pdata⟩, none) := by
  simp only [packetBytes, packetWireLength] at hbuf ⊢
  have hk1 : lenVarInt ((lenVarInt pid + pdata.length : Nat) : Int) =
      (encVarNat (uint32 ((lenVarInt pid + pdata.length : Nat) : Int))).length :=
    lenVarInt_eq_enc _
  have hk2 : lenVarInt pid = (encVarNat (uint32 pid)).length := lenVarInt_eq_enc _
  have h1 : putVarInt buf ((lenVarInt pid + pdata.length : Nat) : Int) =
      (encVarNat (uint32 ((lenVarInt pid + pdata.length : Nat) : Int)) ++
        buf.drop (encVarNat (uint32 ((lenVarInt pid + pdata.length : Nat) : Int))).length,
        (encVarNat (uint32 ((lenVarInt pid + pdata.length : Nat) : Int))).length, none) :=
    putVarInt_spec buf _ (by omega)
  have h2 : putVarInt
      (buf.drop (encVarNat (uint32 ((lenVarInt pid + pdata.length : Nat) : Int))).length) pid =
      (encVarNat (uint32 pid) ++
        (buf.drop
          (encVarNat (uint32 ((lenVarInt pid + pdata.length : Nat) : Int))).length).drop
          (encVarNat (uint32 pid)).length,
        (encVarNat (uint32 pid)).length, none) :=
    putVarInt_spec _ pid (by rw [List.length_drop]; omega)
  unfold putPacket
  simp only []
  rw [if_neg (by omega), h1]
  simp only []
  rw [List.drop_left, h2]
  simp only []
  rw [List.take_left, List.drop_drop]
  have hAdrop : ((encVarNat (uint32 ((lenVarInt pid + pdata.length : Nat) : Int))) ++
      ((encVarNat (uint32 pid)) ++
        buf.drop ((encVarNat (uint32 ((lenVarInt pid + pdata.length : Nat) : Int))).length +
          (encVarNat (uint32 pid)).length))).drop
      ((encVarNat (uint32 ((lenVarInt pid + pdata.length : Nat) : Int))).length +
        (encVarNat (uint32 pid)).length) =
      buf.drop ((encVarNat (uint32 ((lenVarInt pid + pdata.length : Nat) : Int))).length +
        (encVarNat (uint32 pid)).length) := by
    rw [List.drop_append (encVarNat (uint32 pid)).length]
    exact List.drop_left _ _
  have hAtake : ((encVarNat (uint32 ((lenVarInt pid + pdata.length : Nat) : Int))) ++
      ((encVarNat (uint32 pid)) ++
        buf.drop ((encVarNat (uint32 ((lenVarInt pid + pdata.length : Nat) : Int))).length +
          (encVarNat (uint32 pid)).length))).take
      ((encVarNat (uint32 ((lenVarInt pid + pdata.length : Nat) : Int))).length +
        (encVarNat (uint32 pid)).length) =
      (encVarNat (uint32 ((lenVarInt pid + pdata.length : Nat) : Int))) ++
        (encVarNat (uint32 pid)) := by
    rw [List.take_append (encVarNat (uint32 pid)).length, List.take_left]
  have hcopy : goCopy
      (buf.drop ((encVarNat (uint32 ((lenVarInt pid + pdata.length : Nat) : Int))).length +
        (encVarNat (uint32 pid)).length)) pdata =
      (pdata ++ buf.drop ((encVarNat (uint32 ((lenVarInt pid + pdata.length : Nat) : Int))).length +
        (encVarNat (uint32 pid)).length + pdata.length), pdata.length) := by
    unfold goCopy
    rw [List.length_drop, List.take_of_length_le (by omega), List.drop_drop,
      Nat.min_eq_right (by omega)]
  rw [hAdrop, hcopy]
  simp only []
  rw [if_neg (lt_irrefl pdata.length), hAtake]
  rw [hk1, hk2]
  simp [List.append_assoc]

theorem getPacket_spec (pid : Int) (pdata rest : List Nat)
    (hid1 : -(2 : Int) ^ 31 ≤ pid) (hid2 : pid < 2 ^ 31)
    (hlen : lenVarInt pid + pdata.length ≤ 2147483647) :
    getPacket (packetBytes ⟨pid, pdata⟩ ++ rest) =
      some (⟨pid, pdata⟩, packetWireLength ⟨pid, pdata⟩, none) := by
  simp only [packetBytes, packetWireLength, List.append_assoc]
  have hk1 : lenVarInt ((lenVarInt pid + pdata.length : Nat) : Int) =
      (encVarNat (uint32 ((lenVarInt pid + pdata.length : Nat) : Int))).length :=
    lenVarInt_eq_enc _
  have hk2 : lenVarInt pid = (encVarNat (uint32 pid)).length := lenVarInt_eq_enc _
  have hBlen : ((encVarNat (uint32 ((lenVarInt pid + pdata.length : Nat) : Int))) ++
      ((encVarNat (uint32 pid)) ++ (pdata ++ rest))).length =
      (encVarNat (uint32 ((lenVarInt pid + pdata.length : Nat) : Int))).length +
        ((encVarNat (uint32 pid)).length + (pdata.length + rest.length)) := by
    simp [List.length_append]
  unfold getPacket
  simp only []
  rw [getVarInt_enc ((lenVarInt pid + pdata.length : Nat) : Int) _ (by omega) (by omega)]
  simp only []
  rw [List.drop_left' hk1.symm]
  rw [getVarInt_enc pid _ hid1 hid2]
  simp only []
  rw [if_neg (by omega)]
  rw [if_neg (by omega)]
  have hton : ((((lenVarInt pid + pdata.length : Nat)) : Int) - ((lenVarInt pid : Nat) : Int)).toNat
      = pdata.length := by
    omega
  rw [hton]
  have hBdrop : ((encVarNat (uint32 ((lenVarInt pid + pdata.length : Nat) : Int))) ++
      ((encVarNat (uint32 pid)) ++ (pdata ++ rest))).drop
      (lenVarInt ((lenVarInt pid + pdata.length : Nat) : Int) + lenVarInt pid) =
      pdata ++ rest := by
    rw [hk1, hk2, List.drop_append (encVarNat (uint32 pid)).length]
    exact List.drop_left _ _
  rw [hBdrop, List.take_left]

/-- C2: for every packet whose framed length fits in a non-negative 32-bit
value and a sufficiently large destination buffer, putPacket writes exactly
VarInt(lenVarInt id + len data) ++ VarInt(id) ++ data followed by the
untouched buffer tail, consuming that many bytes, and getPacket on the
written buffer returns an equal packet — its payload freshly copied out of
the buffer — with the same consumed count. -/
theorem packet_roundtrip (p : packet) (buf : List Nat)
    (hid1 : -(2 : Int) ^ 31 ≤ p.id) (hid2 : p.id < 2 ^ 31)
    (hlen : lenVarInt p.id + p.data.length ≤ 2147483647)
    (hbuf : packetWireLength p ≤ buf.length) :
    putPacket buf p =
      (packetBytes p ++ buf.drop (packetWireLength p), packetWireLength p, none) ∧
    getPacket (packetBytes p ++ buf.drop (packetWireLength p)) =
      some (p, packetWireLength p, none) := by
  obtain ⟨pid, pdata⟩ := p
  exact ⟨putPacket_spec pid pdata buf hlen hbuf,
    getPacket_spec pid pdata (buf.drop (packetWireLength ⟨pid, pdata⟩)) hid1 hid2 hlen⟩

/-- Witness for `packet_roundtrip` at the spec's packet scenario:
id 4 with payload [3, 2, 1, 0] in a six-byte buffer. -/
theorem packet_roundtrip_witness :
    putPacket (List.replicate 6 9) ⟨4, [3, 2, 1, 0]⟩ =
      (packetBytes ⟨4, [3, 2, 1, 0]⟩ ++
        (List.replicate 6 9).drop (packetWireLength ⟨4, [3, 2, 1, 0]⟩),
        packetWireLength ⟨4, [3, 2, 1, 0]⟩, none) ∧
    getPacket (packetBytes ⟨4, [3, 2, 1, 0]⟩ ++
        (List.replicate 6 9).drop (packetWireLength ⟨4, [3, 2, 1, 0]⟩)) =
      some (⟨4, [3, 2, 1, 0]⟩, packetWireLength ⟨4, [3, 2, 1, 0]⟩, none) :=
  packet_roundtrip ⟨4, [3, 2, 1, 0]⟩ (List.replicate 6 9)
    (by decide) (by decide) (by decide) (by decide)
